import Mathlib

/-!
Verification of the vue-chart-library geometry/scaling engine.

Shallow embedding of the pure computation layer of the charting library
(`src/utils/chartCalculations.js`, `src/utils/validators.js` (colour part),
`src/composables/useChartScale.js`, `src/composables/useChartData.js`,
`src/composables/useChartConfig.js`, `src/components/charts/BaseChart.vue`,
`src/components/charts/StackedChart.vue`, `src/components/charts/TimelineChart.vue`).

JavaScript numbers are modelled by exact rationals (`ℚ`) wherever the code
path keeps values finite; the IEEE special values `NaN`/`±Infinity`, which
the scale engine can actually produce on a degenerate range, are modelled
explicitly by the type `JSNum` below.
-/

namespace VueChart

/-- Chart area rectangle `{x, y, width, height}` (`src/types.js` ChartArea). -/
structure ChartArea where
  x : ℚ
  y : ℚ
  width : ℚ
  height : ℚ
  deriving Repr, DecidableEq

/-- Result record of `calculateNiceScale` (`src/types.js` NiceScale),
with the tick count kept as the integer produced by `Math.round(...) + 1`. -/
structure NiceScale where
  min : ℚ
  max : ℚ
  step : ℚ
  ticks : ℤ
  deriving Repr, DecidableEq

/-- The candidate step multipliers of `calculateNiceScale`
(`const possibleSteps = [1, 2, 5, 10]`, chartCalculations.js line 38). -/
def possibleSteps : List ℚ := [1, 2, 5, 10]

/-- The `for (const step of possibleSteps)` loop of `calculateNiceScale`
(chartCalculations.js lines 40-47): `niceStep` starts at
`possibleSteps[0] * magnitudePower` and is replaced by the first
`testStep = step * magnitudePower` with `testStep >= roughStep`, breaking out
of the loop.  Equivalently: the first candidate `≥ roughStep` if one exists,
otherwise the initial value. -/
def pickNiceStep (roughStep magnitudePower : ℚ) : ℚ :=
  match possibleSteps.find? (fun step => roughStep ≤ step * magnitudePower) with
  | some step => step * magnitudePower
  | none => 1 * magnitudePower

/-- Model of `calculateNiceScale(min, max, ticks = 5)` (chartCalculations.js lines 33-58)
on finite inputs with a strictly positive range, where every intermediate
JavaScript number is finite: `Math.floor(Math.log10 roughStep)` is `Int.log 10`
(exact base-10 logarithm floor), `Math.pow(10, magnitude)` is `zpow`,
`Math.floor`/`Math.ceil`/`Math.round` are the exact rational operations. -/
def calculateNiceScale (min max : ℚ) (ticks : ℕ := 5) : NiceScale :=
  let range := max - min
  let roughStep := range / ((ticks : ℚ) - 1)
  let magnitude : ℤ := Int.log 10 roughStep
  let magnitudePower : ℚ := (10 : ℚ) ^ magnitude
  let niceStep := pickNiceStep roughStep magnitudePower
  let niceMin := (⌊min / niceStep⌋ : ℚ) * niceStep
  let niceMax := (⌈max / niceStep⌉ : ℚ) * niceStep
  { min := niceMin
    max := niceMax
    step := niceStep
    ticks := round ((niceMax - niceMin) / niceStep) + 1 }

/-- A JavaScript number: either a finite value (modelled exactly by a rational),
`Infinity`, `-Infinity`, or `NaN`.  The negative zero of IEEE 754 is not
distinguished from `+0`; none of the operations below branch on it along the
code paths verified here. -/
inductive JSNum where
  | nan : JSNum
  | posInf : JSNum
  | negInf : JSNum
  | fin : ℚ → JSNum
  deriving Repr, DecidableEq

namespace JSNum

/-- JavaScript subtraction `a - b` on numbers. -/
def sub : JSNum → JSNum → JSNum
  | nan, _ => nan
  | _, nan => nan
  | posInf, posInf => nan
  | posInf, _ => posInf
  | negInf, negInf => nan
  | negInf, _ => negInf
  | fin _, posInf => negInf
  | fin _, negInf => posInf
  | fin a, fin b => fin (a - b)

/-- JavaScript addition `a + b` on numbers. -/
def add : JSNum → JSNum → JSNum
  | nan, _ => nan
  | _, nan => nan
  | posInf, negInf => nan
  | posInf, _ => posInf
  | negInf, posInf => nan
  | negInf, _ => negInf
  | fin _, posInf => posInf
  | fin _, negInf => negInf
  | fin a, fin b => fin (a + b)

/-- JavaScript multiplication `a * b` on numbers (`±Infinity * 0 = NaN`). -/
def mul : JSNum → JSNum → JSNum
  | nan, _ => nan
  | _, nan => nan
  | posInf, posInf => posInf
  | posInf, negInf => negInf
  | negInf, posInf => negInf
  | negInf, negInf => posInf
  | posInf, fin b => if b = 0 then nan else if 0 < b then posInf else negInf
  | negInf, fin b => if b = 0 then nan else if 0 < b then negInf else posInf
  | fin a, posInf => if a = 0 then nan else if 0 < a then posInf else negInf
  | fin a, negInf => if a = 0 then nan else if 0 < a then negInf else posInf
  | fin a, fin b => fin (a * b)

/-- JavaScript division `a / b` on numbers: division by (positive) zero yields
a signed infinity, `0 / 0 = NaN`, `±Infinity / ±Infinity = NaN`. -/
def div : JSNum → JSNum → JSNum
  | nan, _ => nan
  | _, nan => nan
  | posInf, posInf => nan
  | posInf, negInf => nan
  | negInf, posInf => nan
  | negInf, negInf => nan
  | posInf, fin b => if 0 ≤ b then posInf else negInf
  | negInf, fin b => if 0 ≤ b then negInf else posInf
  | fin _, posInf => fin 0
  | fin _, negInf => fin 0
  | fin a, fin b =>
      if b = 0 then (if a = 0 then nan else if 0 < a then posInf else negInf)
      else fin (a / b)

/-- JavaScript comparison `a <= b` (any comparison involving `NaN` is false). -/
def le : JSNum → JSNum → Bool
  | nan, _ => false
  | _, nan => false
  | negInf, _ => true
  | _, posInf => true
  | posInf, _ => false
  | fin _, negInf => false
  | fin a, fin b => a ≤ b

/-- Model of `Math.floor`. -/
def floor : JSNum → JSNum
  | nan => nan
  | posInf => posInf
  | negInf => negInf
  | fin a => fin (⌊a⌋ : ℚ)

/-- Model of `Math.ceil`. -/
def ceil : JSNum → JSNum
  | nan => nan
  | posInf => posInf
  | negInf => negInf
  | fin a => fin (⌈a⌉ : ℚ)

/-- Model of `Math.round` (half-up, matching Lean's `round`). -/
def rnd : JSNum → JSNum
  | nan => nan
  | posInf => posInf
  | negInf => negInf
  | fin a => fin (round a : ℚ)

/-- Model of `Math.floor(Math.log10 x)`: for finite `x > 0` this is the exact base-10
logarithm floor `Int.log 10 x`; `Math.log10 0 = -Infinity` (and its floor stays
`-Infinity`); the base-10 logarithm of a negative number is `NaN`. -/
def log10Floor : JSNum → JSNum
  | nan => nan
  | posInf => posInf
  | negInf => nan
  | fin a => if 0 < a then fin ((Int.log 10 a : ℤ) : ℚ) else if a = 0 then negInf else nan

/-- Model of `Math.pow(10, y)`.  `10 ^ -Infinity = 0`, `10 ^ Infinity = Infinity`.
For finite `y` the result is rational only when `y` is an integer; the scale
engine only ever applies this to the output of `Math.floor(Math.log10 _)`,
which is integral (or `±Infinity`/`NaN`), so the non-integral case — mapped to
`NaN` here as an unreachable junk value — never arises on the verified paths. -/
def pow10 : JSNum → JSNum
  | nan => nan
  | posInf => posInf
  | negInf => fin 0
  | fin a => if a.den = 1 then fin ((10 : ℚ) ^ a.num) else nan

end JSNum

/-- Result record of `calculateNiceScale` with each field a JavaScript number. -/
structure NiceScaleJS where
  min : JSNum
  max : JSNum
  step : JSNum
  ticks : JSNum
  deriving Repr, DecidableEq

/-- The `possibleSteps` loop of `calculateNiceScale` under full JavaScript
number semantics: first candidate `step * magnitudePower` with
`testStep >= roughStep` (false whenever `NaN` is involved), defaulting to the
initial value `possibleSteps[0] * magnitudePower`. -/
def pickNiceStepJS (roughStep magnitudePower : JSNum) : JSNum :=
  match possibleSteps.find? (fun step => JSNum.le roughStep (JSNum.mul (JSNum.fin step) magnitudePower)) with
  | some step => JSNum.mul (JSNum.fin step) magnitudePower
  | none => JSNum.mul (JSNum.fin 1) magnitudePower

/-- Model of `calculateNiceScale(min, max, ticks = 5)` (chartCalculations.js lines 33-58)
under full JavaScript number semantics, including the `Infinity`/`NaN`
propagation that a degenerate range `min == max` triggers
(`roughStep = 0`, `Math.log10(0) = -Infinity`, `Math.pow(10, -Infinity) = 0`,
`min / 0` then `Math.floor` and `* 0` producing `NaN`). -/
def calculateNiceScaleJS (min max : JSNum) (ticks : ℕ := 5) : NiceScaleJS :=
  let range := JSNum.sub max min
  let roughStep := JSNum.div range (JSNum.fin ((ticks : ℚ) - 1))
  let magnitude := JSNum.log10Floor roughStep
  let magnitudePower := JSNum.pow10 magnitude
  let niceStep := pickNiceStepJS roughStep magnitudePower
  let niceMin := JSNum.mul (JSNum.floor (JSNum.div min niceStep)) niceStep
  let niceMax := JSNum.mul (JSNum.ceil (JSNum.div max niceStep)) niceStep
  { min := niceMin
    max := niceMax
    step := niceStep
    ticks := JSNum.add (JSNum.rnd (JSNum.div (JSNum.sub niceMax niceMin) niceStep)) (JSNum.fin 1) }

/-! ## Responsive sizing (`useChartConfig.js`, i.e. `src/unnamed/part_003`, and
`BaseChart.vue`) -/

/-- JavaScript `a || b` on an optional number: `undefined`, `null` and `0` are
falsy and select the fallback. -/
def jsOrOptNum (a : Option ℚ) (b : ℚ) : ℚ :=
  match a with
  | none => b
  | some v => if v = 0 then b else v

/-- JavaScript `a || b` on two numbers: `0` is falsy and selects the fallback. -/
def jsOrNum (a b : ℚ) : ℚ :=
  if a = 0 then b else a

/-- Truthiness of an optional number (`undefined`, `null` and `0` are falsy). -/
def jsTruthyOptNum (a : Option ℚ) : Bool :=
  match a with
  | none => false
  | some v => v ≠ 0

/-- A `{width, height}` pair (`src/types.js` Dimensions). -/
structure Dimensions where
  width : ℚ
  height : ℚ
  deriving Repr, DecidableEq

/-- The sizing-relevant part of the merged chart configuration of
`useChartConfig`: `responsive` is the derived `config.responsive !== false`,
`maintainAspectRatio` the derived `config.maintainAspectRatio !== false`,
`aspectRatio` the derived `config.aspectRatio || 2`, and
`configWidth`/`configHeight` the raw optional `config.width`/`config.height`. -/
structure SizingConfig where
  responsive : Bool
  maintainAspectRatio : Bool
  aspectRatio : ℚ
  configWidth : Option ℚ
  configHeight : Option ℚ
  deriving Repr, DecidableEq

/-- Model of `calculateDimensions(containerWidth, containerHeight)` of `useChartConfig`
(`src/unnamed/part_003` lines 159-175 and 391-407, two identical copies):
non-responsive charts use `config.width || 600` and `config.height || 300`;
responsive charts use the container width, and replace the container height by
`containerWidth / aspectRatio` when the aspect ratio is maintained and
`containerWidth > 0`. -/
def calculateDimensions (cfg : SizingConfig) (containerWidth containerHeight : ℚ) : Dimensions :=
  if !cfg.responsive then
    { width := jsOrOptNum cfg.configWidth 600, height := jsOrOptNum cfg.configHeight 300 }
  else
    let width := containerWidth
    let height :=
      if cfg.maintainAspectRatio && decide (0 < containerWidth) then
        containerWidth / cfg.aspectRatio
      else containerHeight
    { width := width, height := height }

/-- The `svgWidth` computed value of `BaseChart.vue` (lines 165-178):
`props.width` when non-responsive with an explicit width prop, the width from
`calculateDimensions` when responsive with a measured container, else 600. -/
def svgWidth (cfg : SizingConfig) (propsWidth : Option ℚ)
    (containerWidth containerHeight : ℚ) : ℚ :=
  if !cfg.responsive && jsTruthyOptNum propsWidth then propsWidth.getD 0
  else if cfg.responsive && decide (0 < containerWidth) then
    (calculateDimensions cfg containerWidth containerHeight).width
  else 600

/-- The `svgHeight` computed value of `BaseChart.vue` (lines 180-198): when
responsive with a measured container and a maintained aspect ratio, the
aspect-derived height `svgWidth / aspectRatio` is clamped with
`Math.min(calculatedHeight, containerHeight)` whenever the container height is
known (`> 0`). -/
def svgHeight (cfg : SizingConfig) (propsWidth propsHeight : Option ℚ)
    (containerWidth containerHeight : ℚ) : ℚ :=
  if !cfg.responsive && jsTruthyOptNum propsHeight then propsHeight.getD 0
  else if cfg.responsive && decide (0 < containerWidth) then
    if cfg.maintainAspectRatio then
      let calculatedHeight := svgWidth cfg propsWidth containerWidth containerHeight / cfg.aspectRatio
      if 0 < containerHeight then min calculatedHeight containerHeight
      else calculatedHeight
    else jsOrNum containerHeight (svgWidth cfg propsWidth containerWidth containerHeight / cfg.aspectRatio)
  else 300

/-! ## Value-to-pixel mapping (`useChartScale.js` lines 172-188) -/

/-- Model of `valueToY(value, area)` (useChartScale.js lines 172-176), with the ambient
`yScale.value` min and max passed explicitly: inverted linear map sending
`value` to `area.y + area.height - (value - min) / (max - min) * area.height`. -/
def valueToY (scaleMin scaleMax : ℚ) (value : ℚ) (area : ChartArea) : ℚ :=
  let normalizedValue := (value - scaleMin) / (scaleMax - scaleMin)
  area.y + area.height - normalizedValue * area.height

/-- Model of `valueToHeight(value, area)` (useChartScale.js lines 184-188), with the
ambient `yScale.value` min and max passed explicitly:
`(value - min) / (max - min) * area.height`. -/
def valueToHeight (scaleMin scaleMax : ℚ) (value : ℚ) (area : ChartArea) : ℚ :=
  let normalizedValue := (value - scaleMin) / (scaleMax - scaleMin)
  normalizedValue * area.height

/-! ## Pie slices (`chartCalculations.js` lines 95-133) -/

/-- Model of `calculatePercentages(data)` (chartCalculations.js lines 95-103): all zeros
when the total is 0, otherwise `value / total * 100` for each value. -/
def calculatePercentages (data : List ℚ) : List ℚ :=
  let total := data.sum
  if total = 0 then data.map (fun _ => 0)
  else data.map (fun value => value / total * 100)

/-- A pie slice record (`src/types.js` PieSlice). -/
structure PieSlice where
  startAngle : ℚ
  endAngle : ℚ
  percentage : ℚ
  value : ℚ
  deriving Repr, DecidableEq

/-- The `percentages.forEach` loop of `calculatePieSlices` (chartCalculations.js
lines 121-130), walking the (percentage, value) pairs while threading
`currentAngle`: each slice spans `angle = percentage / 100 * 360` degrees
starting at the current angle. -/
def pieSliceFold : List (ℚ × ℚ) → ℚ → List PieSlice
  | [], _ => []
  | (percentage, value) :: rest, currentAngle =>
      let angle := percentage / 100 * 360
      { startAngle := currentAngle
        endAngle := currentAngle + angle
        percentage := percentage
        value := value } :: pieSliceFold rest (currentAngle + angle)

/-- Model of `calculatePieSlices(data)` (chartCalculations.js lines 116-133): pair each
percentage with its data value (`data[index]`) and fold from the starting angle
`-90` (12 o'clock). -/
def calculatePieSlices (data : List ℚ) : List PieSlice :=
  pieSliceFold ((calculatePercentages data).zip data) (-90)

/-! ## Stacked bar segments (`StackedChart.vue` lines 151-178) -/

/-- One entry of `labelBars` in the `stackedBars` computed value of
`StackedChart.vue` (geometry-relevant fields). -/
structure StackSegment where
  value : ℚ
  datasetIndex : ℕ
  cumulativeValue : ℚ
  deriving Repr, DecidableEq

/-- The `visibleDatasets.value.forEach` loop of `stackedBars`
(StackedChart.vue lines 157-174) at a fixed `labelIndex`, threading the dataset
index and `cumulativeValue`: reads `dataset.data[labelIndex] || 0` and pushes a
segment — advancing the cumulative offset — only when the value is `> 0`. -/
def stackSegGo (labelIndex : ℕ) : List (List ℚ) → ℕ → ℚ → List StackSegment
  | [], _, _ => []
  | data :: rest, datasetIndex, cumulativeValue =>
      let value := jsOrNum (data.getD labelIndex 0) 0
      if 0 < value then
        { value := value
          datasetIndex := datasetIndex
          cumulativeValue := cumulativeValue }
          :: stackSegGo labelIndex rest (datasetIndex + 1) (cumulativeValue + value)
      else stackSegGo labelIndex rest (datasetIndex + 1) cumulativeValue

/-- The `labelBars` list of `stackedBars` (StackedChart.vue lines 151-178) for
one label index, over the `data` arrays of the visible datasets. -/
def stackedBarsAt (visibleData : List (List ℚ)) (labelIndex : ℕ) : List StackSegment :=
  stackSegGo labelIndex visibleData 0 0

/-- The strictly-positive part of the value dataset `d` contributes at
`labelIndex`: the amount by which it advances the cumulative stack offset. -/
def stackContribution (labelIndex : ℕ) (d : List ℚ) : ℚ :=
  let value := jsOrNum (d.getD labelIndex 0) 0
  if 0 < value then value else 0

/-! ## X-axis ticks (`useChartScale.js` lines 107-164) and point X placement
(`src/unnamed/part_010` lines 231-247) -/

/-- A line segment `{x1, y1, x2, y2}` as used by grid lines and tick marks. -/
structure LineSeg where
  x1 : ℚ
  y1 : ℚ
  x2 : ℚ
  y2 : ℚ
  deriving Repr, DecidableEq

/-- A tick label descriptor. -/
structure TickLabel where
  x : ℚ
  y : ℚ
  text : String
  textAnchor : String
  dominantBaseline : String
  deriving Repr, DecidableEq

/-- An X-axis tick descriptor (`src/types.js` Tick). -/
structure XTick where
  value : String
  gridLine : LineSeg
  tickMark : LineSeg
  label : TickLabel
  deriving Repr, DecidableEq

/-- The body of the `labels.forEach` of `generateXAxisTicks` (useChartScale.js
lines 114-161) for one `(index, label)` pair: flush mode centers a single
label, otherwise spreads over `labelCount - 1` equal intervals with `start`/
`end` anchors at the edges; centered mode places the label at the middle of
its `1/labelCount` segment. -/
def mkXTick (area : ChartArea) (labelCount : ℕ) (isFlush : Bool)
    (index : ℕ) (label : String) : XTick :=
  let x : ℚ :=
    if isFlush then
      if labelCount = 1 then area.x + area.width / 2
      else area.x + (area.width / ((labelCount : ℚ) - 1)) * (index : ℚ)
    else area.x + (area.width / (labelCount : ℚ)) * ((index : ℚ) + 1/2)
  let textAnchor : String :=
    if isFlush && decide (labelCount ≠ 1) then
      if index = 0 then "start"
      else if index = labelCount - 1 then "end"
      else "middle"
    else "middle"
  let y := area.y + area.height
  { value := label
    gridLine := { x1 := x, y1 := area.y, x2 := x, y2 := y }
    tickMark := { x1 := x, y1 := y, x2 := x, y2 := y + 5 }
    label := { x := x, y := y + 20, text := label
               textAnchor := textAnchor, dominantBaseline := "hanging" } }

/-- Model of `generateXAxisTicks(area, labels, options)` (useChartScale.js lines
107-164): empty for zero labels, otherwise one tick per label in order. -/
def generateXAxisTicks (area : ChartArea) (labels : List String)
    (isFlush : Bool) : List XTick :=
  if labels.length = 0 then []
  else labels.enum.map (fun p => mkXTick area labels.length isFlush p.1 p.2)

/-- Model of `getXPosition(index, chartArea)` (`src/unnamed/part_010` lines 231-247),
with the ambient label count and flush flag passed explicitly: `area.x` for
zero labels, else the same flush/centered placement as the X ticks. -/
def getXPosition (labelCount : ℕ) (isFlush : Bool) (index : ℕ)
    (area : ChartArea) : ℚ :=
  if labelCount = 0 then area.x
  else if isFlush then
    if labelCount = 1 then area.x + area.width / 2
    else area.x + (area.width / ((labelCount : ℚ) - 1)) * (index : ℚ)
  else area.x + (area.width / (labelCount : ℚ)) * ((index : ℚ) + 1/2)

/-! ## Dataset normalisation (`useChartData.js` lines 38-56, colour palette
from `src/utils/colourUtils.js` = the second half of `src/utils/validators.js`
and `src/unnamed/part_017`) -/

/-- JavaScript `a || b` on an optional string: `undefined`, `null` and the
empty string are falsy and select the fallback. -/
def jsOrOptStr (a : Option String) (b : String) : String :=
  match a with
  | none => b
  | some s => if s = "" then b else s

/-- Constant `DEFAULT_COLORS` (colourUtils.js): the 10-colour default palette. -/
def DEFAULT_COLORS : List String :=
  ["#3b82f6", "#8b5cf6", "#10b981", "#f59e0b", "#ef4444",
   "#06b6d4", "#ec4899", "#14b8a6", "#f97316", "#a855f7"]

/-- Model of `getColorByIndex(index, palette = DEFAULT_COLORS)` (colourUtils.js):
`palette[index % palette.length]`.  For an empty palette the JavaScript index
is `undefined`; that junk case is mapped to `""` and never arises with a
nonempty palette. -/
def getColorByIndex (index : ℕ) (palette : List String := DEFAULT_COLORS) : String :=
  palette.getD (index % palette.length) ""

/-- Model of `generateColorPalette(count, customPalette = null)` (colourUtils.js):
`customPalette || DEFAULT_COLORS`, then one colour per index below `count`. -/
def generateColorPalette (count : ℕ) (customPalette : Option (List String) := none) :
    List String :=
  let palette := customPalette.getD DEFAULT_COLORS
  (List.range count).map (fun i => getColorByIndex i palette)

/-- An input dataset (`src/types.js` Dataset), restricted to the fields the
normalisation touches plus the `data` payload it must carry over. -/
structure Dataset where
  label : Option String
  data : List ℚ
  backgroundColor : Option String
  borderColor : Option String
  borderWidth : Option ℚ
  deriving Repr, DecidableEq

/-- A dataset after normalisation: every defaultable field filled in. -/
structure NormalisedDataset where
  label : String
  data : List ℚ
  backgroundColor : String
  borderColor : String
  borderWidth : ℚ
  deriving Repr, DecidableEq

/-- The body of the `datasets.map` of `normalisedDatasets` (useChartData.js
lines 47-55): a fresh object spread-copied from `dataset` with
`backgroundColor: dataset.backgroundColor || colors[index % colors.length]`,
`borderColor: dataset.borderColor || dataset.backgroundColor || colors[...]`,
`borderWidth: dataset.borderWidth ?? 1` and
`label: dataset.label || 'Dataset N'`. -/
def normaliseDataset (colors : List String) (index : ℕ) (dataset : Dataset) :
    NormalisedDataset :=
  { label := jsOrOptStr dataset.label ("Dataset " ++ toString (index + 1))
    data := dataset.data
    backgroundColor :=
      jsOrOptStr dataset.backgroundColor (colors.getD (index % colors.length) "")
    borderColor :=
      jsOrOptStr dataset.borderColor
        (jsOrOptStr dataset.backgroundColor (colors.getD (index % colors.length) ""))
    borderWidth := dataset.borderWidth.getD 1 }

/-- Model of `normalisedDatasets` (useChartData.js lines 38-56): generate the palette
once for all datasets (`generateColorPalette(datasetCount, options.colors)`),
then map every dataset to its normalised copy. -/
def normalisedDatasets (datasets : List Dataset)
    (optColors : Option (List String) := none) : List NormalisedDataset :=
  let colors := generateColorPalette datasets.length optColors
  datasets.enum.map (fun p => normaliseDataset colors p.1 p.2)

/-! ## Colour string conversions (`colourUtils.js` / `src/unnamed/part_017`) -/

/-- An RGB triple (`src/types.js` RGBColor). -/
structure RGBColor where
  r : ℕ
  g : ℕ
  b : ℕ
  deriving Repr, DecidableEq

/-- The character class `[a-f\d]` of the `hexToRgb` regular expression with the
`i` flag, together with the digit value `parseInt` assigns to the character. -/
def hexDigitVal : Char → Option ℕ
  | c =>
    if '0' ≤ c ∧ c ≤ '9' then some (c.toNat - '0'.toNat)
    else if 'a' ≤ c ∧ c ≤ 'f' then some (c.toNat - 'a'.toNat + 10)
    else if 'A' ≤ c ∧ c ≤ 'F' then some (c.toNat - 'A'.toNat + 10)
    else none

/-- The `#?` part of the `hexToRgb` regular expression: consume an optional
leading `#`. -/
def stripHash (cs : List Char) : List Char :=
  match cs with
  | [] => []
  | c :: rest => if c = '#' then rest else c :: rest

/-- The `([a-f\d]{2})([a-f\d]{2})([a-f\d]{2})$` part of the `hexToRgb` regular
expression together with the three `parseInt(_, 16)` reads: exactly six hex
digits, combined pairwise into the three channels. -/
def parseSixHex (body : List Char) : Option RGBColor :=
  match body with
  | [c1, c2, c3, c4, c5, c6] =>
    match hexDigitVal c1, hexDigitVal c2, hexDigitVal c3,
        hexDigitVal c4, hexDigitVal c5, hexDigitVal c6 with
    | some d1, some d2, some d3, some d4, some d5, some d6 =>
        some { r := 16 * d1 + d2, g := 16 * d3 + d4, b := 16 * d5 + d6 }
    | _, _, _, _, _, _ => none
  | _ => none

/-- Model of `hexToRgb(hex)` (colourUtils.js) on the character list of the
input: the regular expression `^#?([a-f\d]{2})([a-f\d]{2})([a-f\d]{2})$/i`
consumes an optional leading `#`, then exactly six hex digits. -/
def hexToRgbChars (cs : List Char) : Option RGBColor :=
  parseSixHex (stripHash cs)

/-- Model of `hexToRgb(hex)` (colourUtils.js), `null` modelled by `none`. -/
def hexToRgb (hex : String) : Option RGBColor :=
  hexToRgbChars hex.toList

/-- The hexadecimal digit characters produced by `Number.prototype.toString(16)`
(lowercase). -/
def hexDigitChar (n : ℕ) : Char :=
  if n < 10 then Char.ofNat ('0'.toNat + n) else Char.ofNat ('a'.toNat + (n - 10))

/-- One channel of `rgbToHex` (colourUtils.js): `x.toString(16)` padded with a
leading `'0'` when it has a single digit (`hex.length === 1 ? '0' + hex : hex`).
Faithful on the channel domain `x < 256`; larger values would print three or
more digits in JavaScript. -/
def jsHexByte (x : ℕ) : List Char :=
  if x < 16 then ['0', hexDigitChar x]
  else [hexDigitChar (x / 16), hexDigitChar (x % 16)]

/-- Model of `rgbToHex(r, g, b)` (colourUtils.js) as a character list:
`'#' + [r, g, b].map(toString(16) padded).join('')`. -/
def rgbToHexChars (r g b : ℕ) : List Char :=
  '#' :: (jsHexByte r ++ jsHexByte g ++ jsHexByte b)

/-- Model of `rgbToHex(r, g, b)` (colourUtils.js). -/
def rgbToHex (r g b : ℕ) : String :=
  String.mk (rgbToHexChars r g b)

/-- Model of `String.prototype.replace(pat, repl)` with a string pattern: replace the
first occurrence only, scanning left to right; the input is returned unchanged
when the pattern does not occur. -/
def replaceFirst (pat repl : List Char) : List Char → List Char
  | [] => []
  | c :: cs =>
      if pat.isPrefixOf (c :: cs) then repl ++ (c :: cs).drop pat.length
      else c :: replaceFirst pat repl cs

/-- The template literal `rgba(${r}, ${g}, ${b}, ${alpha})` of `addAlpha`
(colourUtils.js).  The decimal rendering of the alpha number is abstracted by
`toString` on `ℚ`; no verified property inspects those digits. -/
def rgbaChars (rgb : RGBColor) (alpha : ℚ) : List Char :=
  ['r', 'g', 'b', 'a', '('] ++ (toString rgb.r).toList
    ++ [',', ' '] ++ (toString rgb.g).toList
    ++ [',', ' '] ++ (toString rgb.b).toList
    ++ [',', ' '] ++ (toString alpha).toList ++ [')']

/-- Model of `addAlpha(color, alpha)` (colourUtils.js) on the character list of the
colour: a `#`-prefixed colour is parsed with `hexToRgb` and rebuilt as
`rgba(...)` (returned unchanged when unparseable); a colour starting with
`rgb(` gets `.replace('rgb(', 'rgba(').replace(')', ', alpha)')`; anything
else is returned unchanged. -/
def addAlphaChars (color : List Char) (alpha : ℚ) : List Char :=
  if ['#'].isPrefixOf color then
    match hexToRgbChars color with
    | none => color
    | some rgb => rgbaChars rgb alpha
  else if ['r', 'g', 'b', '('].isPrefixOf color then
    replaceFirst [')'] ([',', ' '] ++ (toString alpha).toList ++ [')'])
      (replaceFirst ['r', 'g', 'b', '('] ['r', 'g', 'b', 'a', '('] color)
  else color

/-- Model of `addAlpha(color, alpha)` (colourUtils.js). -/
def addAlpha (color : String) (alpha : ℚ) : String :=
  String.mk (addAlphaChars color.toList alpha)

/-!
Theorems.
-/

/-- The step selected by the `possibleSteps` loop is always a candidate
multiplier times the magnitude power. -/
theorem pickNiceStep_spec (roughStep magnitudePower : ℚ) :
    ∃ m ∈ possibleSteps, pickNiceStep roughStep magnitudePower = m * magnitudePower := by
  unfold pickNiceStep
  cases h : possibleSteps.find? (fun step => roughStep ≤ step * magnitudePower) with
  | none => exact ⟨1, by simp [possibleSteps], rfl⟩
  | some s => exact ⟨s, List.mem_of_find?_eq_some h, rfl⟩

/-- Every candidate multiplier is strictly positive. -/
theorem possibleSteps_pos : ∀ m ∈ possibleSteps, (0 : ℚ) < m := by
  intro m hm
  fin_cases hm <;> norm_num

/-- The step field of `calculateNiceScale`, unfolded. -/
theorem calculateNiceScale_step_eq (min max : ℚ) (t : ℕ) :
    (calculateNiceScale min max t).step =
      pickNiceStep ((max - min) / ((t : ℚ) - 1))
        ((10 : ℚ) ^ (Int.log 10 ((max - min) / ((t : ℚ) - 1)))) := rfl

/-- The min field of `calculateNiceScale`, unfolded. -/
theorem calculateNiceScale_min_eq (min max : ℚ) (t : ℕ) :
    (calculateNiceScale min max t).min =
      (⌊min / (calculateNiceScale min max t).step⌋ : ℚ) * (calculateNiceScale min max t).step := rfl

/-- The max field of `calculateNiceScale`, unfolded. -/
theorem calculateNiceScale_max_eq (min max : ℚ) (t : ℕ) :
    (calculateNiceScale min max t).max =
      (⌈max / (calculateNiceScale min max t).step⌉ : ℚ) * (calculateNiceScale min max t).step := rfl

/-- C1 (amended: the bound inputs must satisfy `min < max`, not `min ≤ max`;
the degenerate `min = max` case is refuted by
`calculateNiceScale_claim_fails_on_degenerate_range`).  For finite `min < max`
and target tick count `t ≥ 2`, `calculateNiceScale(min, max, t)` returns
`min' ≤ min`, `max' ≥ max`, a step of the form `m * 10^k` with
`m ∈ possibleSteps = [1, 2, 5, 10]` and `k` an integer, and a tick count equal
to `round((max' - min') / step) + 1`. -/
theorem calculateNiceScale_sound (min max : ℚ) (t : ℕ) (_hlt : min < max) (_ht : 2 ≤ t) :
    (calculateNiceScale min max t).min ≤ min ∧
    max ≤ (calculateNiceScale min max t).max ∧
    (∃ m ∈ possibleSteps, ∃ k : ℤ, (calculateNiceScale min max t).step = m * (10 : ℚ) ^ k) ∧
    (calculateNiceScale min max t).ticks =
      round (((calculateNiceScale min max t).max - (calculateNiceScale min max t).min) /
        (calculateNiceScale min max t).step) + 1 := by
  obtain ⟨m, hm, hpick⟩ :=
    pickNiceStep_spec ((max - min) / ((t : ℚ) - 1))
      ((10 : ℚ) ^ (Int.log 10 ((max - min) / ((t : ℚ) - 1))))
  have hstep : (calculateNiceScale min max t).step =
      m * (10 : ℚ) ^ (Int.log 10 ((max - min) / ((t : ℚ) - 1))) :=
    (calculateNiceScale_step_eq min max t).trans hpick
  have hpow : (0 : ℚ) < (10 : ℚ) ^ (Int.log 10 ((max - min) / ((t : ℚ) - 1))) :=
    zpow_pos (by norm_num) _
  have hspos : 0 < (calculateNiceScale min max t).step := by
    rw [hstep]
    exact mul_pos (possibleSteps_pos m hm) hpow
  have hsne : (calculateNiceScale min max t).step ≠ 0 := ne_of_gt hspos
  refine ⟨?_, ?_, ⟨m, hm, _, hstep⟩, rfl⟩
  · rw [calculateNiceScale_min_eq]
    calc (⌊min / (calculateNiceScale min max t).step⌋ : ℚ) * (calculateNiceScale min max t).step
        ≤ (min / (calculateNiceScale min max t).step) * (calculateNiceScale min max t).step :=
          mul_le_mul_of_nonneg_right (Int.floor_le _) hspos.le
      _ = min := div_mul_cancel₀ min hsne
  · rw [calculateNiceScale_max_eq]
    calc max = (max / (calculateNiceScale min max t).step) * (calculateNiceScale min max t).step :=
          (div_mul_cancel₀ max hsne).symm
      _ ≤ (⌈max / (calculateNiceScale min max t).step⌉ : ℚ) * (calculateNiceScale min max t).step :=
          mul_le_mul_of_nonneg_right (Int.le_ceil _) hspos.le

/-- Witness for C1: the amended theorem instantiated at
`calculateNiceScale(23, 87, 5)`. -/
theorem calculateNiceScale_sound_witness :
    (23 : ℚ) < 87 ∧ 2 ≤ 5 ∧
    ((calculateNiceScale 23 87 5).min ≤ 23 ∧
      (87 : ℚ) ≤ (calculateNiceScale 23 87 5).max ∧
      (∃ m ∈ possibleSteps, ∃ k : ℤ, (calculateNiceScale 23 87 5).step = m * (10 : ℚ) ^ k) ∧
      (calculateNiceScale 23 87 5).ticks =
        round (((calculateNiceScale 23 87 5).max - (calculateNiceScale 23 87 5).min) /
          (calculateNiceScale 23 87 5).step) + 1) :=
  ⟨by norm_num, by norm_num, calculateNiceScale_sound 23 87 5 (by norm_num) (by norm_num)⟩

/-- Counterexample to C1 as stated (with `min ≤ max`): at the admissible input
`min = max = 0`, `t = 5`, the JavaScript evaluation of `calculateNiceScale`
returns `step = 0`, which is not of the form `m * 10^k` for any
`m ∈ [1, 2, 5, 10]` and integer `k`. -/
theorem calculateNiceScale_claim_fails_on_degenerate_range :
    (calculateNiceScaleJS (JSNum.fin 0) (JSNum.fin 0) 5).step = JSNum.fin 0 ∧
    ¬ ∃ m ∈ possibleSteps, ∃ k : ℤ,
        (calculateNiceScaleJS (JSNum.fin 0) (JSNum.fin 0) 5).step = JSNum.fin (m * (10 : ℚ) ^ k) := by
  have hstep : (calculateNiceScaleJS (JSNum.fin 0) (JSNum.fin 0) 5).step = JSNum.fin 0 := by
    norm_num [calculateNiceScaleJS, pickNiceStepJS, possibleSteps, JSNum.sub, JSNum.div,
      JSNum.mul, JSNum.le, JSNum.log10Floor, JSNum.pow10, List.find?]
  refine ⟨hstep, ?_⟩
  rintro ⟨m, hm, k, hk⟩
  rw [hstep] at hk
  have h0 : (0 : ℚ) = m * (10 : ℚ) ^ k := by
    injection hk
  have hmne : (m : ℚ) ≠ 0 := ne_of_gt (possibleSteps_pos m hm)
  have hpne : ((10 : ℚ) ^ k) ≠ 0 := zpow_ne_zero k (by norm_num)
  exact (mul_ne_zero hmne hpne) h0.symm

/-- C2: at a degenerate range `min == max` the code does NOT produce a usable
scale: for `min = max = 0` (all-zero data) and for a nonzero degenerate range
`min = max = 7`, `calculateNiceScale` divides by zero and returns
`step = 0` with `NaN` min, max and tick count. -/
theorem calculateNiceScaleJS_degenerate_eval :
    calculateNiceScaleJS (JSNum.fin 0) (JSNum.fin 0) 5 =
      { min := JSNum.nan, max := JSNum.nan, step := JSNum.fin 0, ticks := JSNum.nan } ∧
    calculateNiceScaleJS (JSNum.fin 7) (JSNum.fin 7) 5 =
      { min := JSNum.nan, max := JSNum.nan, step := JSNum.fin 0, ticks := JSNum.nan } := by
  constructor <;>
    norm_num [calculateNiceScaleJS, pickNiceStepJS, possibleSteps, JSNum.sub, JSNum.div,
      JSNum.mul, JSNum.le, JSNum.floor, JSNum.ceil, JSNum.rnd, JSNum.add,
      JSNum.log10Floor, JSNum.pow10, List.find?]

/-- Counterexample to C3 as stated: with a responsive, aspect-ratio-maintaining
configuration (aspect ratio 2), container width 800 and container height 100,
`calculateDimensions` itself returns height `400 > 100` — it does NOT clamp
the height to the container height. -/
theorem calculateDimensions_claim_fails_no_clamp :
    (calculateDimensions ⟨true, true, 2, none, none⟩ 800 100).height = 400 ∧
    ¬ (calculateDimensions ⟨true, true, 2, none, none⟩ 800 100).height ≤ 100 := by
  norm_num [calculateDimensions]

/-- C3 (amended: `calculateDimensions` returns the unclamped aspect-derived
height; the clamp to the container height is applied downstream, in the
`svgHeight` computed value of `BaseChart.vue`).  For a responsive,
aspect-ratio-maintaining configuration with known container dimensions,
`calculateDimensions` returns `width = containerWidth` and
`height = containerWidth / aspectRatio`, and the rendered SVG height is
`min(containerWidth / aspectRatio, containerHeight)`, which never exceeds the
container height. -/
theorem responsive_sizing_sound (cfg : SizingConfig) (propsWidth propsHeight : Option ℚ)
    (cw ch : ℚ) (hr : cfg.responsive = true) (hm : cfg.maintainAspectRatio = true)
    (hw : 0 < cw) (hh : 0 < ch) :
    (calculateDimensions cfg cw ch).width = cw ∧
    (calculateDimensions cfg cw ch).height = cw / cfg.aspectRatio ∧
    svgHeight cfg propsWidth propsHeight cw ch = Min.min (cw / cfg.aspectRatio) ch ∧
    svgHeight cfg propsWidth propsHeight cw ch ≤ ch := by
  have hdim : calculateDimensions cfg cw ch =
      { width := cw, height := cw / cfg.aspectRatio } := by
    simp [calculateDimensions, hr, hm, hw]
  have hsw : svgWidth cfg propsWidth cw ch = cw := by
    simp [svgWidth, hr, hw, hdim]
  have hsh : svgHeight cfg propsWidth propsHeight cw ch = Min.min (cw / cfg.aspectRatio) ch := by
    simp [svgHeight, hr, hm, hw, hh, hsw]
  exact ⟨by rw [hdim], by rw [hdim], hsh, by rw [hsh]; exact min_le_right _ _⟩

/-- Witness for C3: the amended theorem instantiated at the counterexample
configuration (responsive, aspect ratio 2, container 800 × 100). -/
theorem responsive_sizing_sound_witness :
    (0 : ℚ) < 800 ∧ (0 : ℚ) < 100 ∧
    ((calculateDimensions ⟨true, true, 2, none, none⟩ 800 100).width = 800 ∧
      (calculateDimensions ⟨true, true, 2, none, none⟩ 800 100).height = 800 / 2 ∧
      svgHeight ⟨true, true, 2, none, none⟩ none none 800 100 = Min.min (800 / 2) 100 ∧
      svgHeight ⟨true, true, 2, none, none⟩ none none 800 100 ≤ 100) :=
  ⟨by norm_num, by norm_num,
    responsive_sizing_sound ⟨true, true, 2, none, none⟩ none none 800 100
      rfl rfl (by norm_num) (by norm_num)⟩

/-- Counterexample to C4 as stated: for the Y scale `[-10, 10]` (reachable,
e.g. from data ranging over `[-10, 10]`) and the chart area
`{x = 0, y = 0, width = 100, height = 20}`, `valueToHeight 5 = 15` while the
unsigned magnitude of the mapping measured from the ZERO baseline,
`|valueToY 0 - valueToY 5|`, is `5`: the height is measured from the scale
minimum, not from zero. -/
theorem valueToHeight_claim_fails_zero_baseline :
    valueToHeight (-10) 10 5 ⟨0, 0, 100, 20⟩ = 15 ∧
    |valueToY (-10) 10 0 ⟨0, 0, 100, 20⟩ - valueToY (-10) 10 5 ⟨0, 0, 100, 20⟩| = 5 ∧
    valueToHeight (-10) 10 5 ⟨0, 0, 100, 20⟩ ≠
      |valueToY (-10) 10 0 ⟨0, 0, 100, 20⟩ - valueToY (-10) 10 5 ⟨0, 0, 100, 20⟩| := by
  norm_num [valueToHeight, valueToY]

/-- C4 (amended: `valueToHeight` is the signed magnitude of the linear mapping
measured from the SCALE-MINIMUM baseline, `valueToY scaleMin - valueToY value`;
it agrees with the unsigned magnitude from the zero baseline exactly in the
begin-at-zero situation `scaleMin = 0` with a nonnegative value and area
height).  The endpoint and linearity parts of the claim hold as stated:
`valueToY scaleMin = area.y + area.height`, `valueToY scaleMax = area.y`, and
`valueToY` is the inverted linear map. -/
theorem valueToY_valueToHeight_sound (scaleMin scaleMax value : ℚ) (area : ChartArea)
    (h : scaleMin < scaleMax) :
    valueToY scaleMin scaleMax scaleMin area = area.y + area.height ∧
    valueToY scaleMin scaleMax scaleMax area = area.y ∧
    valueToY scaleMin scaleMax value area =
      area.y + area.height - (value - scaleMin) / (scaleMax - scaleMin) * area.height ∧
    valueToHeight scaleMin scaleMax value area =
      valueToY scaleMin scaleMax scaleMin area - valueToY scaleMin scaleMax value area ∧
    (scaleMin = 0 → 0 ≤ value → 0 ≤ area.height →
      valueToHeight scaleMin scaleMax value area =
        |valueToY scaleMin scaleMax 0 area - valueToY scaleMin scaleMax value area|) := by
  have hne : scaleMax - scaleMin ≠ 0 := sub_ne_zero.mpr (ne_of_gt h)
  refine ⟨?_, ?_, rfl, ?_, ?_⟩
  · simp [valueToY]
  · simp [valueToY, div_self hne]
  · simp only [valueToHeight, valueToY, sub_self, zero_div, zero_mul, sub_zero]
    ring
  · rintro rfl hv hh
    have hpos : 0 < scaleMax := h
    simp only [valueToHeight, valueToY, sub_zero, zero_div, zero_mul]
    rw [abs_of_nonneg]
    · ring
    · have : 0 ≤ value / scaleMax * area.height :=
        mul_nonneg (div_nonneg hv hpos.le) hh
      linarith [this]

/-- Witness for C4: the amended theorem instantiated at the begin-at-zero
scale `[0, 100]`, value `40`, area `{x = 0, y = 10, width = 200, height = 50}`. -/
theorem valueToY_valueToHeight_sound_witness :
    (0 : ℚ) < 100 ∧
    (valueToY 0 100 0 ⟨0, 10, 200, 50⟩ = 10 + 50 ∧
      valueToY 0 100 100 ⟨0, 10, 200, 50⟩ = 10 ∧
      valueToY 0 100 40 ⟨0, 10, 200, 50⟩ = 10 + 50 - (40 - 0) / (100 - 0) * 50 ∧
      valueToHeight 0 100 40 ⟨0, 10, 200, 50⟩ =
        valueToY 0 100 0 ⟨0, 10, 200, 50⟩ - valueToY 0 100 40 ⟨0, 10, 200, 50⟩ ∧
      ((0 : ℚ) = 0 → (0 : ℚ) ≤ 40 → (0 : ℚ) ≤ (50 : ℚ) →
        valueToHeight 0 100 40 ⟨0, 10, 200, 50⟩ =
          |valueToY 0 100 0 ⟨0, 10, 200, 50⟩ - valueToY 0 100 40 ⟨0, 10, 200, 50⟩|)) := by
  refine ⟨by norm_num, ?_⟩
  have := valueToY_valueToHeight_sound 0 100 40 ⟨0, 10, 200, 50⟩ (by norm_num)
  simpa using this

/-- Unfolding equation for one step of the pie-slice fold. -/
theorem pieSliceFold_cons (pp pv : ℚ) (rest : List (ℚ × ℚ)) (c : ℚ) :
    pieSliceFold ((pp, pv) :: rest) c =
      { startAngle := c, endAngle := c + pp / 100 * 360, percentage := pp, value := pv }
        :: pieSliceFold rest (c + pp / 100 * 360) := rfl

/-- The pie-slice fold yields one slice per input pair. -/
theorem pieSliceFold_length (ps : List (ℚ × ℚ)) (c : ℚ) :
    (pieSliceFold ps c).length = ps.length := by
  induction ps generalizing c with
  | nil => rfl
  | cons p rest ih =>
    obtain ⟨pp, pv⟩ := p
    simp [pieSliceFold_cons, ih]

/-- The first slice of a nonempty pie-slice fold starts at the initial angle. -/
theorem pieSliceFold_head_startAngle (ps : List (ℚ × ℚ)) (c : ℚ)
    (h : 0 < (pieSliceFold ps c).length) :
    ((pieSliceFold ps c).get ⟨0, h⟩).startAngle = c := by
  cases ps with
  | nil => simp [pieSliceFold] at h
  | cons p rest =>
    obtain ⟨pp, pv⟩ := p
    simp [pieSliceFold_cons]

/-- Adjacent slices of the pie-slice fold are contiguous. -/
theorem pieSliceFold_contiguous (ps : List (ℚ × ℚ)) (c : ℚ) :
    ∀ i, ∀ h : i + 1 < (pieSliceFold ps c).length,
      ((pieSliceFold ps c).get ⟨i + 1, h⟩).startAngle =
        ((pieSliceFold ps c).get ⟨i, Nat.lt_of_succ_lt h⟩).endAngle := by
  induction ps generalizing c with
  | nil => intro i h; simp [pieSliceFold] at h
  | cons p rest ih =>
    obtain ⟨pp, pv⟩ := p
    intro i h
    rw [pieSliceFold_cons] at h
    cases i with
    | zero =>
      have hlen : 0 < (pieSliceFold rest (c + pp / 100 * 360)).length := by
        simpa using Nat.lt_of_succ_lt_succ h
      simp only [pieSliceFold_cons, List.get_cons_succ, List.get_cons_zero]
      exact pieSliceFold_head_startAngle rest (c + pp / 100 * 360) hlen
    | succ j =>
      simp only [pieSliceFold_cons, List.get_cons_succ]
      exact ih (c + pp / 100 * 360) j (Nat.lt_of_succ_lt_succ h)

/-- The last slice of a nonempty pie-slice fold ends at the initial angle plus
the total of the per-slice angles. -/
theorem pieSliceFold_getLast? (ps : List (ℚ × ℚ)) (c : ℚ) (h : ps ≠ []) :
    ∃ s : PieSlice, (pieSliceFold ps c).getLast? = some s ∧
      s.endAngle = c + (ps.map (fun p => p.1 / 100 * 360)).sum := by
  induction ps generalizing c with
  | nil => exact absurd rfl h
  | cons p rest ih =>
    obtain ⟨pp, pv⟩ := p
    cases rest with
    | nil =>
      refine ⟨{ startAngle := c, endAngle := c + pp / 100 * 360,
                percentage := pp, value := pv }, ?_, ?_⟩
      · rw [pieSliceFold_cons]
        rfl
      · simp
    | cons q rest' =>
      obtain ⟨qp, qv⟩ := q
      obtain ⟨s, hs, he⟩ := ih (c + pp / 100 * 360) (by simp)
      refine ⟨s, ?_, ?_⟩
      · rw [pieSliceFold_cons, pieSliceFold_cons, List.getLast?_cons_cons,
          ← pieSliceFold_cons]
        exact hs
      · rw [he]
        simp only [List.map_cons, List.sum_cons]
        ring

/-- The slice percentages of the pie-slice fold are the first components of the
input pairs. -/
theorem pieSliceFold_map_percentage (ps : List (ℚ × ℚ)) (c : ℚ) :
    (pieSliceFold ps c).map PieSlice.percentage = ps.map Prod.fst := by
  induction ps generalizing c with
  | nil => rfl
  | cons p rest ih =>
    obtain ⟨pp, pv⟩ := p
    simp [pieSliceFold_cons, ih]

/-- If every input percentage is zero, every slice is zero-width. -/
theorem pieSliceFold_zero_width (ps : List (ℚ × ℚ)) (c : ℚ)
    (hz : ∀ p ∈ ps, p.1 = 0) :
    ∀ s ∈ pieSliceFold ps c, s.percentage = 0 ∧ s.startAngle = s.endAngle := by
  induction ps generalizing c with
  | nil => simp [pieSliceFold]
  | cons p rest ih =>
    obtain ⟨pp, pv⟩ := p
    have hp : pp = 0 := hz (pp, pv) (List.mem_cons_self _ _)
    intro s hs
    rw [pieSliceFold_cons] at hs
    rcases List.mem_cons.mp hs with h1 | h2
    · subst h1
      constructor <;> simp [hp]
    · exact ih (c + pp / 100 * 360) (fun q hq => hz q (List.mem_cons_of_mem _ hq)) s h2

/-- Number of percentages produced equals the number of data values. -/
theorem calculatePercentages_length (data : List ℚ) :
    (calculatePercentages data).length = data.length := by
  simp only [calculatePercentages]
  split <;> simp

/-- Summing a list mapped through division and scaling. -/
theorem sum_map_div_mul (data : List ℚ) (t m : ℚ) :
    (data.map (fun v => v / t * m)).sum = data.sum / t * m := by
  induction data with
  | nil => simp
  | cons x xs ih =>
    simp only [List.map_cons, List.sum_cons, ih]
    ring

/-- With a nonzero total the percentages sum to exactly 100. -/
theorem calculatePercentages_sum (data : List ℚ) (h : data.sum ≠ 0) :
    (calculatePercentages data).sum = 100 := by
  simp only [calculatePercentages]
  rw [if_neg h, sum_map_div_mul, div_self h, one_mul]

/-- C5: `calculatePieSlices` yields one slice per value, the first starting at
`-90`, consecutive slices contiguous (next `startAngle` equals previous
`endAngle`); with a nonzero total the percentages sum to 100 and the last
slice ends at `-90 + 360 = 270`; with a zero total every slice has percentage
0 and zero angular width. -/
theorem calculatePieSlices_sound (data : List ℚ) :
    (calculatePieSlices data).length = data.length ∧
    (∀ h : 0 < (calculatePieSlices data).length,
      ((calculatePieSlices data).get ⟨0, h⟩).startAngle = -90) ∧
    (∀ i, ∀ h : i + 1 < (calculatePieSlices data).length,
      ((calculatePieSlices data).get ⟨i + 1, h⟩).startAngle =
        ((calculatePieSlices data).get ⟨i, Nat.lt_of_succ_lt h⟩).endAngle) ∧
    (data.sum ≠ 0 →
      ((calculatePieSlices data).map PieSlice.percentage).sum = 100 ∧
      ∃ s, (calculatePieSlices data).getLast? = some s ∧ s.endAngle = -90 + 360) ∧
    (data.sum = 0 → ∀ s ∈ calculatePieSlices data,
      s.percentage = 0 ∧ s.startAngle = s.endAngle) := by
  have hplen := calculatePercentages_length data
  have hzlen : ((calculatePercentages data).zip data).length = data.length := by
    rw [List.length_zip, hplen, min_self]
  refine ⟨?_, ?_, ?_, ?_, ?_⟩
  · rw [calculatePieSlices, pieSliceFold_length, hzlen]
  · intro h
    exact pieSliceFold_head_startAngle _ _ h
  · intro i h
    exact pieSliceFold_contiguous _ _ i h
  · intro hsum
    have hfst : ((calculatePercentages data).zip data).map Prod.fst =
        calculatePercentages data :=
      List.map_fst_zip _ _ (le_of_eq hplen)
    constructor
    · rw [calculatePieSlices, pieSliceFold_map_percentage, hfst,
        calculatePercentages_sum data hsum]
    · have hne : (calculatePercentages data).zip data ≠ [] := by
        intro h0
        have := congrArg List.length h0
        rw [hzlen] at this
        simp only [List.length_nil] at this
        rw [List.length_eq_zero] at this
        subst this
        simp at hsum
      obtain ⟨s, hs, he⟩ := pieSliceFold_getLast? _ (-90) hne
      refine ⟨s, hs, ?_⟩
      rw [he]
      have hmap : (((calculatePercentages data).zip data).map (fun p => p.1 / 100 * 360)) =
          ((((calculatePercentages data).zip data).map Prod.fst).map
            (fun v => v / 100 * 360)) := by
        rw [List.map_map]
        rfl
      rw [hmap, hfst, sum_map_div_mul, calculatePercentages_sum data hsum]
      norm_num
  · intro hsum s hs
    refine pieSliceFold_zero_width _ (-90) ?_ s hs
    rintro ⟨a, b⟩ hp
    have ha : a ∈ calculatePercentages data := (List.of_mem_zip hp).1
    simp only [calculatePercentages, if_pos hsum] at ha
    obtain ⟨_, _, rfl⟩ := List.mem_map.mp ha
    rfl

/-- Witness for C5: the theorem instantiated at `calculatePieSlices [25, 75]`,
with the nonzero-total hypotheses discharged. -/
theorem calculatePieSlices_sound_witness :
    (calculatePieSlices [25, 75]).length = 2 ∧
    ((calculatePieSlices [(25 : ℚ), 75]).map PieSlice.percentage).sum = 100 ∧
    (∃ s, (calculatePieSlices [(25 : ℚ), 75]).getLast? = some s ∧
      s.endAngle = -90 + 360) := by
  obtain ⟨hlen, _, _, htot, _⟩ := calculatePieSlices_sound [25, 75]
  obtain ⟨hsum, hlast⟩ := htot (by norm_num)
  exact ⟨by rw [hlen]; rfl, hsum, hlast⟩

/-- JavaScript `value || 0` is the identity on numbers (with `0 || 0 = 0`). -/
theorem jsOrNum_zero (a : ℚ) : jsOrNum a 0 = a := by
  unfold jsOrNum
  split_ifs with h
  · rw [h]
  · rfl

/-- Unfolding equation for one step of the stacked-segment loop. -/
theorem stackSegGo_cons (li : ℕ) (d : List ℚ) (rest : List (List ℚ)) (dIdx : ℕ) (c : ℚ) :
    stackSegGo li (d :: rest) dIdx c =
      if 0 < jsOrNum (d.getD li 0) 0 then
        { value := jsOrNum (d.getD li 0) 0, datasetIndex := dIdx, cumulativeValue := c }
          :: stackSegGo li rest (dIdx + 1) (c + jsOrNum (d.getD li 0) 0)
      else stackSegGo li rest (dIdx + 1) c := rfl

/-- Characterisation of every emitted stacked segment: it comes from a dataset
with a strictly positive value at the label index, carries that value, and its
cumulative offset is the initial offset plus the positive contributions of the
preceding datasets. -/
theorem stackSegGo_mem (li : ℕ) : ∀ (ds : List (List ℚ)) (d0 : ℕ) (c0 : ℚ),
    ∀ seg ∈ stackSegGo li ds d0 c0,
    ∃ j, ∃ hj : j < ds.length, seg.datasetIndex = d0 + j ∧
      seg.value = (ds.get ⟨j, hj⟩).getD li 0 ∧ 0 < seg.value ∧
      seg.cumulativeValue = c0 + ((ds.take j).map (stackContribution li)).sum := by
  intro ds
  induction ds with
  | nil =>
    intro d0 c0 seg hseg
    simp [stackSegGo] at hseg
  | cons d rest ih =>
    intro d0 c0 seg hseg
    rw [stackSegGo_cons] at hseg
    by_cases hv : 0 < jsOrNum (d.getD li 0) 0
    · rw [if_pos hv] at hseg
      rcases List.mem_cons.mp hseg with h1 | h2
      · subst h1
        refine ⟨0, Nat.succ_pos _, by simp, by simp [jsOrNum_zero], ?_, by simp⟩
        simpa [jsOrNum_zero] using hv
      · obtain ⟨j, hj, hidx, hval, hpos, hcum⟩ :=
          ih (d0 + 1) (c0 + jsOrNum (d.getD li 0) 0) seg h2
        refine ⟨j + 1, Nat.succ_lt_succ hj, by omega, by simpa using hval, hpos, ?_⟩
        rw [hcum]
        rw [jsOrNum_zero] at hv
        simp only [List.take_succ_cons, List.map_cons, List.sum_cons,
          stackContribution, jsOrNum_zero, if_pos hv]
        ring
    · rw [if_neg hv] at hseg
      obtain ⟨j, hj, hidx, hval, hpos, hcum⟩ := ih (d0 + 1) c0 seg hseg
      refine ⟨j + 1, Nat.succ_lt_succ hj, by omega, by simpa using hval, hpos, ?_⟩
      rw [hcum]
      rw [jsOrNum_zero] at hv
      simp only [List.take_succ_cons, List.map_cons, List.sum_cons,
        stackContribution, jsOrNum_zero, if_neg hv]
      ring

/-- A stacked segment is emitted for dataset `i` exactly when the value of
dataset `i` at the label index is strictly positive. -/
theorem stackSegGo_emits_iff (li : ℕ) : ∀ (ds : List (List ℚ)) (d0 : ℕ) (c0 : ℚ) (i : ℕ),
    (∃ seg ∈ stackSegGo li ds d0 c0, seg.datasetIndex = d0 + i) ↔
    (∃ hi : i < ds.length, 0 < (ds.get ⟨i, hi⟩).getD li 0) := by
  intro ds
  induction ds with
  | nil =>
    intro d0 c0 i
    simp [stackSegGo]
  | cons d rest ih =>
    intro d0 c0 i
    rw [stackSegGo_cons]
    by_cases hv : 0 < jsOrNum (d.getD li 0) 0
    · rw [if_pos hv]
      cases i with
      | zero =>
        constructor
        · intro _
          exact ⟨Nat.succ_pos _, by simpa [jsOrNum_zero] using hv⟩
        · intro _
          exact ⟨_, List.mem_cons_self _ _, by simp⟩
      | succ j =>
        constructor
        · rintro ⟨seg, hseg, hidx⟩
          rcases List.mem_cons.mp hseg with h1 | h2
          · rw [h1] at hidx
            simp at hidx
          · obtain ⟨hj, hval⟩ :=
              (ih (d0 + 1) (c0 + jsOrNum (d.getD li 0) 0) j).mp ⟨seg, h2, by omega⟩
            exact ⟨Nat.succ_lt_succ hj, by simpa using hval⟩
        · rintro ⟨hi, hval⟩
          have hj : j < rest.length := Nat.lt_of_succ_lt_succ hi
          obtain ⟨seg, hseg, hidx⟩ :=
            (ih (d0 + 1) (c0 + jsOrNum (d.getD li 0) 0) j).mpr ⟨hj, by simpa using hval⟩
          exact ⟨seg, List.mem_cons_of_mem _ hseg, by omega⟩
    · rw [if_neg hv]
      cases i with
      | zero =>
        constructor
        · rintro ⟨seg, hseg, hidx⟩
          obtain ⟨j, hj, hidx', _, _, _⟩ := stackSegGo_mem li rest (d0 + 1) c0 seg hseg
          omega
        · rintro ⟨hi, hval⟩
          rw [jsOrNum_zero] at hv
          simp only [List.get] at hval
          exact absurd hval hv
      | succ j =>
        constructor
        · rintro ⟨seg, hseg, hidx⟩
          obtain ⟨hj, hval⟩ := (ih (d0 + 1) c0 j).mp ⟨seg, hseg, by omega⟩
          exact ⟨Nat.succ_lt_succ hj, by simpa using hval⟩
        · rintro ⟨hi, hval⟩
          have hj : j < rest.length := Nat.lt_of_succ_lt_succ hi
          obtain ⟨seg, hseg, hidx⟩ := (ih (d0 + 1) c0 j).mpr ⟨hj, by simpa using hval⟩
          exact ⟨seg, hseg, by omega⟩

/-- C6: in the stacked-bar computation, a segment is emitted for a visible
dataset at a label index if and only if that dataset's value there is strictly
greater than 0 (non-positive values are skipped), and every emitted segment's
cumulative offset is the sum of the strictly-positive values of the preceding
visible datasets at the same index. -/
theorem stackedBars_sound (visibleData : List (List ℚ)) (labelIndex : ℕ) :
    (∀ i, (∃ seg ∈ stackedBarsAt visibleData labelIndex, seg.datasetIndex = i) ↔
      ∃ hi : i < visibleData.length,
        0 < (visibleData.get ⟨i, hi⟩).getD labelIndex 0) ∧
    (∀ seg ∈ stackedBarsAt visibleData labelIndex,
      ∃ hseg : seg.datasetIndex < visibleData.length,
        seg.value = (visibleData.get ⟨seg.datasetIndex, hseg⟩).getD labelIndex 0 ∧
        0 < seg.value ∧
        seg.cumulativeValue =
          ((visibleData.take seg.datasetIndex).map (stackContribution labelIndex)).sum) := by
  constructor
  · intro i
    have h := stackSegGo_emits_iff labelIndex visibleData 0 0 i
    simpa [stackedBarsAt] using h
  · intro seg hseg
    obtain ⟨j, hj, hidx, hval, hpos, hcum⟩ :=
      stackSegGo_mem labelIndex visibleData 0 0 seg hseg
    have hidx' : seg.datasetIndex = j := by omega
    rw [hidx']
    refine ⟨hj, hval, hpos, ?_⟩
    rw [hcum]
    ring

/-- Witness for C6: the characterisation applied to the concrete segment
`{value 4, dataset 2, cumulative 1}` emitted at label 0 of the visible data
`[[1, -2], [0, 3], [4, 5]]` (dataset 1 contributes nothing at label 0,
dataset 0 contributes 1). -/
theorem stackedBars_sound_witness :
    ∃ hseg : ({ value := 4, datasetIndex := 2, cumulativeValue := 1 } :
        StackSegment).datasetIndex < ([[1, -2], [0, 3], [4, 5]] : List (List ℚ)).length,
      ({ value := 4, datasetIndex := 2, cumulativeValue := 1 } : StackSegment).value =
        (([[1, -2], [0, 3], [4, 5]] : List (List ℚ)).get
          ⟨({ value := 4, datasetIndex := 2, cumulativeValue := 1 } :
            StackSegment).datasetIndex, hseg⟩).getD 0 0 ∧
      0 < ({ value := 4, datasetIndex := 2, cumulativeValue := 1 } : StackSegment).value ∧
      ({ value := 4, datasetIndex := 2, cumulativeValue := 1 } :
          StackSegment).cumulativeValue =
        ((([[1, -2], [0, 3], [4, 5]] : List (List ℚ)).take
          ({ value := 4, datasetIndex := 2, cumulativeValue := 1 } :
            StackSegment).datasetIndex).map (stackContribution 0)).sum :=
  (stackedBars_sound [[1, -2], [0, 3], [4, 5]] 0).2
    { value := 4, datasetIndex := 2, cumulativeValue := 1 }
    (by norm_num [stackedBarsAt, stackSegGo_cons, jsOrNum])

/-- The X tick built by `generateXAxisTicks` is placed at the same abscissa as
the data point of `getXPosition` (the two code paths implement the same
flush/centered rule). -/
theorem mkXTick_label_x (area : ChartArea) (n : ℕ) (isFlush : Bool) (i : ℕ)
    (label : String) (hn : n ≠ 0) :
    (mkXTick area n isFlush i label).label.x = getXPosition n isFlush i area := by
  simp only [mkXTick, getXPosition, if_neg hn]

/-- With at least one label, `generateXAxisTicks` is the indexed map of
`mkXTick` over the labels. -/
theorem generateXAxisTicks_eq (area : ChartArea) (labels : List String) (isFlush : Bool)
    (h0 : labels.length ≠ 0) :
    generateXAxisTicks area labels isFlush =
      labels.enum.map (fun p => mkXTick area labels.length isFlush p.1 p.2) := by
  simp [generateXAxisTicks, h0]

/-- C7: `generateXAxisTicks` yields one tick per label, placed exactly where
`getXPosition` places the data point; in flush mode with `n ≥ 2` labels tick
`i` sits at `area.x + (area.width / (n - 1)) * i`, so the first tick is at
`area.x` and the last at `area.x + area.width`; in centered mode (the default)
tick `i` sits at `area.x + (area.width / n) * (i + 0.5)`, so the first tick is
at `area.x` plus half a segment width; a single label in flush mode is
centered at `area.x + area.width / 2`. -/
theorem xTickPlacement_sound (area : ChartArea) (labels : List String) (isFlush : Bool) :
    (generateXAxisTicks area labels isFlush).length = labels.length ∧
    (∀ i, ∀ h : i < (generateXAxisTicks area labels isFlush).length,
      ((generateXAxisTicks area labels isFlush).get ⟨i, h⟩).label.x =
        getXPosition labels.length isFlush i area) ∧
    (2 ≤ labels.length →
      (∀ i, i < labels.length → getXPosition labels.length true i area =
        area.x + area.width / ((labels.length : ℚ) - 1) * (i : ℚ)) ∧
      getXPosition labels.length true 0 area = area.x ∧
      getXPosition labels.length true (labels.length - 1) area = area.x + area.width) ∧
    (1 ≤ labels.length →
      (∀ i, i < labels.length → getXPosition labels.length false i area =
        area.x + area.width / (labels.length : ℚ) * ((i : ℚ) + 1/2)) ∧
      getXPosition labels.length false 0 area =
        area.x + area.width / (labels.length : ℚ) / 2) ∧
    (labels.length = 1 →
      getXPosition labels.length true 0 area = area.x + area.width / 2) := by
  refine ⟨?_, ?_, ?_, ?_, ?_⟩
  · by_cases h0 : labels.length = 0
    · simp [generateXAxisTicks, h0]
    · simp [generateXAxisTicks, h0]
  · intro i h
    have h0 : labels.length ≠ 0 := by
      intro hc
      simp only [generateXAxisTicks, if_pos hc] at h
      simp at h
    revert h
    rw [generateXAxisTicks_eq area labels isFlush h0]
    intro h
    rw [List.get_eq_getElem, List.getElem_map, List.getElem_enum]
    exact mkXTick_label_x area labels.length isFlush i _ h0
  · intro h2
    have h0 : labels.length ≠ 0 := by omega
    have h1 : labels.length ≠ 1 := by omega
    have hform : ∀ i : ℕ, getXPosition labels.length true i area =
        area.x + area.width / ((labels.length : ℚ) - 1) * (i : ℚ) := by
      intro i
      simp only [getXPosition, if_neg h0, if_neg h1]
      simp
    refine ⟨fun i _ => hform i, ?_, ?_⟩
    · rw [hform 0]
      simp
    · rw [hform (labels.length - 1)]
      have hne : ((labels.length : ℚ) - 1) ≠ 0 := by
        have : (2 : ℚ) ≤ (labels.length : ℚ) := by exact_mod_cast h2
        intro hc
        rw [sub_eq_zero] at hc
        rw [hc] at this
        norm_num at this
      have hcast : ((labels.length - 1 : ℕ) : ℚ) = (labels.length : ℚ) - 1 := by
        have : 1 ≤ labels.length := by omega
        push_cast [this]
        ring
      rw [hcast, div_mul_cancel₀ _ hne]
  · intro h1
    have h0 : labels.length ≠ 0 := by omega
    have hform : ∀ i : ℕ, getXPosition labels.length false i area =
        area.x + area.width / (labels.length : ℚ) * ((i : ℚ) + 1/2) := by
      intro i
      simp only [getXPosition, if_neg h0]
      simp
    refine ⟨fun i _ => hform i, ?_⟩
    rw [hform 0]
    push_cast
    ring
  · intro h1
    simp only [getXPosition, h1]
    norm_num

/-- Witness for C7: the placement theorem instantiated at three labels over
the area `{x = 10, y = 5, width = 90, height = 50}`: flush ticks at
`10, 55, 100` (first at `area.x`, last at `area.x + area.width`), centered
first tick at `10 + 90/3/2 = 25`. -/
theorem xTickPlacement_sound_witness :
    (generateXAxisTicks ⟨10, 5, 90, 50⟩ ["a", "b", "c"] true).length = 3 ∧
    getXPosition 3 true 0 ⟨10, 5, 90, 50⟩ = 10 ∧
    getXPosition 3 true 2 ⟨10, 5, 90, 50⟩ = 10 + 90 ∧
    getXPosition 3 false 0 ⟨10, 5, 90, 50⟩ = 10 + 90 / 3 / 2 := by
  obtain ⟨hlen, _, hflush, hcent, _⟩ :=
    xTickPlacement_sound ⟨10, 5, 90, 50⟩ ["a", "b", "c"] true
  obtain ⟨_, hfirst, hlast⟩ := hflush (by norm_num)
  obtain ⟨_, hcfirst⟩ := hcent (by norm_num)
  refine ⟨by simpa using hlen, ?_, ?_, ?_⟩
  · simpa using hfirst
  · simpa using hlast
  · simpa using hcfirst

/-- The palette generated once for `count` datasets, indexed modulo its own
length at an index below `count`, is exactly the palette colour for that
dataset index. -/
theorem generateColorPalette_getD (count : ℕ) (optColors : Option (List String))
    (i : ℕ) (hi : i < count) :
    (generateColorPalette count optColors).getD
        (i % (generateColorPalette count optColors).length) "" =
      getColorByIndex i (optColors.getD DEFAULT_COLORS) := by
  have hlen : (generateColorPalette count optColors).length = count := by
    simp [generateColorPalette]
  rw [hlen, Nat.mod_eq_of_lt hi,
    List.getD_eq_getElem _ _ (by rw [hlen]; exact hi)]
  simp [generateColorPalette]

/-- Unfolding of one normalised entry. -/
theorem normalisedDatasets_get (datasets : List Dataset) (optColors : Option (List String))
    (i : ℕ) (h2 : i < (normalisedDatasets datasets optColors).length)
    (h : i < datasets.length) :
    (normalisedDatasets datasets optColors).get ⟨i, h2⟩ =
      normaliseDataset (generateColorPalette datasets.length optColors) i
        (datasets.get ⟨i, h⟩) := by
  simp only [normalisedDatasets] at h2 ⊢
  rw [List.get_eq_getElem, List.getElem_map, List.getElem_enum]
  rfl

/-- C8: dataset normalisation returns fresh records: the `data` payload of each
input dataset is carried over unchanged (the input itself, being a value, is
untouched — the code builds each output object by spread-copying), and the
defaultable fields are filled in exactly when absent: `backgroundColor` from
the palette at the dataset index, `borderWidth` 1, and `label` `"Dataset N"`
with `N = index + 1`; fields that are present (and truthy, for the `||`
defaults) are preserved. -/
theorem normalisedDatasets_sound (datasets : List Dataset) (optColors : Option (List String)) :
    (normalisedDatasets datasets optColors).length = datasets.length ∧
    ∀ i, ∀ h : i < datasets.length, ∀ h2 : i < (normalisedDatasets datasets optColors).length,
      ((normalisedDatasets datasets optColors).get ⟨i, h2⟩).data =
        (datasets.get ⟨i, h⟩).data ∧
      ((datasets.get ⟨i, h⟩).backgroundColor = none →
        ((normalisedDatasets datasets optColors).get ⟨i, h2⟩).backgroundColor =
          getColorByIndex i (optColors.getD DEFAULT_COLORS)) ∧
      ((datasets.get ⟨i, h⟩).borderWidth = none →
        ((normalisedDatasets datasets optColors).get ⟨i, h2⟩).borderWidth = 1) ∧
      ((datasets.get ⟨i, h⟩).label = none →
        ((normalisedDatasets datasets optColors).get ⟨i, h2⟩).label =
          "Dataset " ++ toString (i + 1)) ∧
      (∀ w, (datasets.get ⟨i, h⟩).borderWidth = some w →
        ((normalisedDatasets datasets optColors).get ⟨i, h2⟩).borderWidth = w) ∧
      (∀ s, (datasets.get ⟨i, h⟩).backgroundColor = some s → s ≠ "" →
        ((normalisedDatasets datasets optColors).get ⟨i, h2⟩).backgroundColor = s) ∧
      (∀ s, (datasets.get ⟨i, h⟩).label = some s → s ≠ "" →
        ((normalisedDatasets datasets optColors).get ⟨i, h2⟩).label = s) := by
  refine ⟨by simp [normalisedDatasets], ?_⟩
  intro i h h2
  rw [normalisedDatasets_get datasets optColors i h2 h]
  refine ⟨rfl, ?_, ?_, ?_, ?_, ?_, ?_⟩
  · intro hbg
    simp only [normaliseDataset, hbg, jsOrOptStr]
    exact generateColorPalette_getD datasets.length optColors i h
  · intro hbw
    rw [List.get_eq_getElem] at hbw
    simp [normaliseDataset, hbw]
  · intro hlab
    rw [List.get_eq_getElem] at hlab
    simp [normaliseDataset, hlab, jsOrOptStr]
  · intro w hw
    rw [List.get_eq_getElem] at hw
    simp [normaliseDataset, hw]
  · intro s hs hne
    rw [List.get_eq_getElem] at hs
    simp [normaliseDataset, hs, jsOrOptStr, hne]
  · intro s hs hne
    rw [List.get_eq_getElem] at hs
    simp [normaliseDataset, hs, jsOrOptStr, hne]

/-- Witness for C8: a single dataset with every defaultable field absent is
normalised to the first default palette colour, border width 1 and label
`"Dataset 1"`, with its data carried over. -/
theorem normalisedDatasets_sound_witness :
    (normalisedDatasets [⟨none, [1, 2], none, none, none⟩] none).length = 1 ∧
    ((normalisedDatasets [⟨none, [1, 2], none, none, none⟩] none).getD 0
      ⟨"", [], "", "", 0⟩).data = [1, 2] ∧
    ((normalisedDatasets [⟨none, [1, 2], none, none, none⟩] none).getD 0
      ⟨"", [], "", "", 0⟩).backgroundColor = getColorByIndex 0 DEFAULT_COLORS ∧
    ((normalisedDatasets [⟨none, [1, 2], none, none, none⟩] none).getD 0
      ⟨"", [], "", "", 0⟩).borderWidth = 1 ∧
    ((normalisedDatasets [⟨none, [1, 2], none, none, none⟩] none).getD 0
      ⟨"", [], "", "", 0⟩).label = "Dataset " ++ toString (0 + 1) := by
  obtain ⟨hlen, hfields⟩ :=
    normalisedDatasets_sound [⟨none, [1, 2], none, none, none⟩] none
  have h : (0 : ℕ) < ([⟨none, [1, 2], none, none, none⟩] : List Dataset).length := by
    norm_num
  have h2 : (0 : ℕ) <
      (normalisedDatasets [⟨none, [1, 2], none, none, none⟩] none).length := by
    rw [hlen]
    norm_num
  obtain ⟨hdata, hbg, hbw, hlab, _, _, _⟩ := hfields 0 h h2
  simp only [List.get_eq_getElem] at hdata hbg hbw hlab
  rw [List.getD_eq_getElem _ _ h2]
  exact ⟨hlen, hdata, hbg rfl, hbw rfl, hlab rfl⟩

/-- Parsing inverts printing on a single hexadecimal digit. -/
theorem hexDigitVal_hexDigitChar (n : ℕ) (h : n < 16) :
    hexDigitVal (hexDigitChar n) = some n := by
  interval_cases n <;> decide

/-- On the channel domain, the padded byte printer always emits the high and
low hex digits. -/
theorem jsHexByte_eq (x : ℕ) (_h : x < 256) :
    jsHexByte x = [hexDigitChar (x / 16), hexDigitChar (x % 16)] := by
  unfold jsHexByte
  split_ifs with h16
  · rw [Nat.div_eq_of_lt h16, Nat.mod_eq_of_lt h16]
    congr 1
  · rfl

/-- Stripping the hash from a hash-prefixed list. -/
theorem stripHash_hash (rest : List Char) : stripHash ('#' :: rest) = rest := by
  simp [stripHash]

/-- Every character list is its own strip result or the strip result prefixed
with a hash. -/
theorem stripHash_cases (cs : List Char) :
    cs = stripHash cs ∨ cs = '#' :: stripHash cs := by
  cases cs with
  | nil => exact Or.inl rfl
  | cons c rest =>
    by_cases hc : c = '#'
    · subst hc
      exact Or.inr (by rw [stripHash_hash])
    · left
      simp [stripHash, hc]

/-- The six-hex-digit parser succeeds exactly on lists of six hex digits. -/
theorem parseSixHex_isSome_iff (body : List Char) :
    (parseSixHex body).isSome ↔
      body.length = 6 ∧ ∀ c ∈ body, (hexDigitVal c).isSome := by
  constructor
  · intro h
    rcases body with _ | ⟨c1, _ | ⟨c2, _ | ⟨c3, _ | ⟨c4, _ | ⟨c5, _ | ⟨c6, _ | ⟨c7, rest⟩⟩⟩⟩⟩⟩⟩
    · simp [parseSixHex] at h
    · simp [parseSixHex] at h
    · simp [parseSixHex] at h
    · simp [parseSixHex] at h
    · simp [parseSixHex] at h
    · simp [parseSixHex] at h
    · rcases hv1 : hexDigitVal c1 with _ | d1
      · simp [parseSixHex, hv1] at h
      rcases hv2 : hexDigitVal c2 with _ | d2
      · simp [parseSixHex, hv1, hv2] at h
      rcases hv3 : hexDigitVal c3 with _ | d3
      · simp [parseSixHex, hv1, hv2, hv3] at h
      rcases hv4 : hexDigitVal c4 with _ | d4
      · simp [parseSixHex, hv1, hv2, hv3, hv4] at h
      rcases hv5 : hexDigitVal c5 with _ | d5
      · simp [parseSixHex, hv1, hv2, hv3, hv4, hv5] at h
      rcases hv6 : hexDigitVal c6 with _ | d6
      · simp [parseSixHex, hv1, hv2, hv3, hv4, hv5, hv6] at h
      refine ⟨rfl, ?_⟩
      intro c hc
      simp only [List.mem_cons, List.not_mem_nil, or_false] at hc
      rcases hc with rfl | rfl | rfl | rfl | rfl | rfl <;>
        simp [hv1, hv2, hv3, hv4, hv5, hv6]
    · simp [parseSixHex] at h
  · rintro ⟨hlen, hdig⟩
    rcases body with _ | ⟨c1, _ | ⟨c2, _ | ⟨c3, _ | ⟨c4, _ | ⟨c5, _ | ⟨c6, _ | ⟨c7, rest⟩⟩⟩⟩⟩⟩⟩ <;>
      simp at hlen
    obtain ⟨d1, hv1⟩ := Option.isSome_iff_exists.mp (hdig c1 (by simp))
    obtain ⟨d2, hv2⟩ := Option.isSome_iff_exists.mp (hdig c2 (by simp))
    obtain ⟨d3, hv3⟩ := Option.isSome_iff_exists.mp (hdig c3 (by simp))
    obtain ⟨d4, hv4⟩ := Option.isSome_iff_exists.mp (hdig c4 (by simp))
    obtain ⟨d5, hv5⟩ := Option.isSome_iff_exists.mp (hdig c5 (by simp))
    obtain ⟨d6, hv6⟩ := Option.isSome_iff_exists.mp (hdig c6 (by simp))
    simp [parseSixHex, hv1, hv2, hv3, hv4, hv5, hv6]

/-- C9: channel-exact round trip and rejection of malformed input.  For all
channel values `r, g, b < 256`, `hexToRgb (rgbToHex r g b)` recovers exactly
`{r, g, b}`; and `hexToRgb` returns `null` exactly on the strings that are not
six hexadecimal digits optionally prefixed by `#`. -/
theorem hexToRgb_rgbToHex_sound (r g b : ℕ) (s : String)
    (hr : r < 256) (hg : g < 256) (hb : b < 256) :
    hexToRgb (rgbToHex r g b) = some ⟨r, g, b⟩ ∧
    (hexToRgb s = none ↔
      ¬ ∃ body : List Char, (s.toList = body ∨ s.toList = '#' :: body) ∧
        body.length = 6 ∧ ∀ c ∈ body, (hexDigitVal c).isSome) := by
  constructor
  · have hr1 : r / 16 < 16 := by omega
    have hg1 : g / 16 < 16 := by omega
    have hb1 : b / 16 < 16 := by omega
    have hr2 : r % 16 < 16 := Nat.mod_lt _ (by norm_num)
    have hg2 : g % 16 < 16 := Nat.mod_lt _ (by norm_num)
    have hb2 : b % 16 < 16 := Nat.mod_lt _ (by norm_num)
    show hexToRgbChars (rgbToHexChars r g b) = some ⟨r, g, b⟩
    rw [rgbToHexChars, jsHexByte_eq r hr, jsHexByte_eq g hg, jsHexByte_eq b hb]
    show parseSixHex (stripHash _) = some ⟨r, g, b⟩
    rw [show ([hexDigitChar (r / 16), hexDigitChar (r % 16)] ++
        [hexDigitChar (g / 16), hexDigitChar (g % 16)] ++
        [hexDigitChar (b / 16), hexDigitChar (b % 16)]) =
        [hexDigitChar (r / 16), hexDigitChar (r % 16), hexDigitChar (g / 16),
          hexDigitChar (g % 16), hexDigitChar (b / 16), hexDigitChar (b % 16)] from rfl]
    rw [stripHash_hash]
    simp only [parseSixHex, hexDigitVal_hexDigitChar _ hr1, hexDigitVal_hexDigitChar _ hr2,
      hexDigitVal_hexDigitChar _ hg1, hexDigitVal_hexDigitChar _ hg2,
      hexDigitVal_hexDigitChar _ hb1, hexDigitVal_hexDigitChar _ hb2]
    have er : 16 * (r / 16) + r % 16 = r := Nat.div_add_mod r 16
    have eg : 16 * (g / 16) + g % 16 = g := Nat.div_add_mod g 16
    have eb : 16 * (b / 16) + b % 16 = b := Nat.div_add_mod b 16
    rw [er, eg, eb]
  · rw [← Option.not_isSome_iff_eq_none]
    constructor
    · intro hns hpat
      apply hns
      obtain ⟨body, hdisj, hlen, hdig⟩ := hpat
      show (parseSixHex (stripHash s.toList)).isSome
      have hbody : stripHash s.toList = body := by
        rcases hdisj with hd | hd
        · rw [hd]
          rcases body with _ | ⟨c, rest⟩
          · rfl
          · have hcne : c ≠ '#' := by
              intro hc
              have := hdig c (by simp)
              rw [hc] at this
              simp [hexDigitVal] at this
            simp [stripHash, hcne]
        · rw [hd, stripHash_hash]
      rw [hbody]
      exact (parseSixHex_isSome_iff body).mpr ⟨hlen, hdig⟩
    · intro hnpat
      rw [Option.not_isSome_iff_eq_none]
      by_contra hne
      apply hnpat
      have hsome : (parseSixHex (stripHash s.toList)).isSome := by
        rcases h : parseSixHex (stripHash s.toList) with _ | v
        · exact absurd h hne
        · rfl
      obtain ⟨hlen, hdig⟩ := (parseSixHex_isSome_iff _).mp hsome
      exact ⟨stripHash s.toList, (stripHash_cases s.toList).imp id id, hlen, hdig⟩

/-- Witness for C9: the round trip at the documented example `(59, 130, 246)`
(`#3b82f6`), and the rejection of the string `"invalid"`. -/
theorem hexToRgb_rgbToHex_sound_witness :
    (59 : ℕ) < 256 ∧ (130 : ℕ) < 256 ∧ (246 : ℕ) < 256 ∧
    (hexToRgb (rgbToHex 59 130 246) = some ⟨59, 130, 246⟩ ∧
      (hexToRgb "invalid" = none ↔
        ¬ ∃ body : List Char, (("invalid" : String).toList = body ∨
            ("invalid" : String).toList = '#' :: body) ∧
          body.length = 6 ∧ ∀ c ∈ body, (hexDigitVal c).isSome)) :=
  ⟨by norm_num, by norm_num, by norm_num,
    hexToRgb_rgbToHex_sound 59 130 246 "invalid"
      (by norm_num) (by norm_num) (by norm_num)⟩

/-- A colour starting with neither `#` nor `rgb(` passes through `addAlpha`
unchanged. -/
theorem addAlphaChars_passthrough (cs : List Char) (α : ℚ)
    (h1 : (['#'].isPrefixOf cs) = false)
    (h2 : (['r', 'g', 'b', '('].isPrefixOf cs) = false) :
    addAlphaChars cs α = cs := by
  simp [addAlphaChars, h1, h2]

/-- A character list starting with `rgba` — in particular every output of the
two rewriting branches of `addAlpha` — passes through `addAlpha` unchanged. -/
theorem addAlphaChars_rgba (t : List Char) (α : ℚ) :
    addAlphaChars ('r' :: 'g' :: 'b' :: 'a' :: t) α = 'r' :: 'g' :: 'b' :: 'a' :: t := by
  have h1 : (['#'].isPrefixOf ('r' :: 'g' :: 'b' :: 'a' :: t)) = false := rfl
  have h2 : ((['r', 'g', 'b', '('].isPrefixOf ('r' :: 'g' :: 'b' :: 'a' :: t))) = false := rfl
  exact addAlphaChars_passthrough _ α h1 h2

/-- A matched pattern at the head of the list is replaced. -/
theorem replaceFirst_pos (pat repl : List Char) (c : Char) (cs : List Char)
    (h : pat.isPrefixOf (c :: cs) = true) :
    replaceFirst pat repl (c :: cs) = repl ++ (c :: cs).drop pat.length := by
  simp [replaceFirst, h]

/-- Evaluation of the `rgb(` branch of `addAlpha`: the two `replace` calls turn
`rgb(` into `rgba(` and splice the alpha before the first `)` of the tail. -/
theorem addAlphaChars_rgb_eval (t : List Char) (α : ℚ) :
    addAlphaChars ('r' :: 'g' :: 'b' :: '(' :: t) α =
      'r' :: 'g' :: 'b' :: 'a' :: '(' ::
        replaceFirst [')'] ([',', ' '] ++ (toString α).toList ++ [')']) t := by
  have hpre : (['r', 'g', 'b', '('].isPrefixOf ('r' :: 'g' :: 'b' :: '(' :: t)) = true := by
    simp [List.isPrefixOf]
  simp only [addAlphaChars, hpre]
  rw [replaceFirst_pos _ _ _ _ hpre]
  rfl

/-- Evaluation of the hex branch of `addAlpha` on a parseable `#` colour. -/
theorem addAlphaChars_hex_eval (cs : List Char) (α : ℚ) (rgb : RGBColor)
    (h1 : (['#'].isPrefixOf cs) = true) (hsome : hexToRgbChars cs = some rgb) :
    addAlphaChars cs α = rgbaChars rgb α := by
  simp [addAlphaChars, h1, hsome]

/-- Evaluation of the hex branch of `addAlpha` on an unparseable `#` colour. -/
theorem addAlphaChars_hex_none (cs : List Char) (α : ℚ)
    (h1 : (['#'].isPrefixOf cs) = true) (hnone : hexToRgbChars cs = none) :
    addAlphaChars cs α = cs := by
  simp [addAlphaChars, h1, hnone]

/-- Lifting a character-level fixed point of `addAlphaChars` to strings. -/
theorem addAlpha_eq_self (s : String) (α : ℚ)
    (h : addAlphaChars s.toList α = s.toList) : addAlpha s α = s := by
  cases s with
  | mk data =>
    show String.mk (addAlphaChars data α) = String.mk data
    rw [show addAlphaChars data α = data from h]

/-- C10: `addAlpha` returns unchanged every string that starts with neither
`#` nor `rgb(` — in particular strings already of the form `rgba(...)` — and
every unparseable `#`-prefixed string; and for every parseable hex or
`rgb(...)` input, applying `addAlpha` a second time (with any alpha) is the
identity on the first application's output. -/
theorem addAlpha_sound (s : String) (α β : ℚ) :
    ((['#'].isPrefixOf s.toList) = false → (['r', 'g', 'b', '('].isPrefixOf s.toList) = false →
      addAlpha s α = s) ∧
    ((['r', 'g', 'b', 'a'].isPrefixOf s.toList) = true → addAlpha s α = s) ∧
    ((['#'].isPrefixOf s.toList) = true → hexToRgbChars s.toList = none →
      addAlpha s α = s) ∧
    (((['#'].isPrefixOf s.toList) = true ∧ (hexToRgbChars s.toList).isSome) ∨
        (['r', 'g', 'b', '('].isPrefixOf s.toList) = true →
      addAlpha (addAlpha s α) β = addAlpha s α) := by
  refine ⟨?_, ?_, ?_, ?_⟩
  · intro h1 h2
    exact addAlpha_eq_self s α (addAlphaChars_passthrough s.toList α h1 h2)
  · intro h
    obtain ⟨t, ht⟩ := List.isPrefixOf_iff_prefix.mp h
    apply addAlpha_eq_self s α
    rw [← ht]
    exact addAlphaChars_rgba t α
  · intro h1 hnone
    exact addAlpha_eq_self s α (addAlphaChars_hex_none s.toList α h1 hnone)
  · intro hcase
    have hout : ∃ t, addAlphaChars s.toList α = 'r' :: 'g' :: 'b' :: 'a' :: t := by
      rcases hcase with ⟨h1, hsome⟩ | hrgb
      · obtain ⟨rgb, hrgbv⟩ := Option.isSome_iff_exists.mp hsome
        rw [addAlphaChars_hex_eval s.toList α rgb h1 hrgbv]
        exact ⟨'(' :: ((toString rgb.r).toList ++ [',', ' '] ++ (toString rgb.g).toList
          ++ [',', ' '] ++ (toString rgb.b).toList ++ [',', ' ']
          ++ (toString α).toList ++ [')']), rfl⟩
      · obtain ⟨t, ht⟩ := List.isPrefixOf_iff_prefix.mp hrgb
        rw [← ht]
        show ∃ t1, addAlphaChars ('r' :: 'g' :: 'b' :: '(' :: t) α =
          'r' :: 'g' :: 'b' :: 'a' :: t1
        rw [addAlphaChars_rgb_eval t α]
        exact ⟨_, rfl⟩
    obtain ⟨t, ht⟩ := hout
    show String.mk (addAlphaChars (addAlpha s α).toList β) = addAlpha s α
    have htl : (addAlpha s α).toList = addAlphaChars s.toList α := rfl
    rw [htl, ht, addAlphaChars_rgba t β, ← ht, ← htl]
    cases addAlpha s α with
    | mk data => rfl

/-- Witness for C10: the second application of `addAlpha` is the identity on
the hex colour `#3b82f6` with alphas `1/2` then `3/10`, and the already-rgba
string `rgba(1, 2, 3, 1)` passes through unchanged. -/
theorem addAlpha_sound_witness :
    ((['#'].isPrefixOf ("#3b82f6" : String).toList) = true ∧
      (hexToRgbChars ("#3b82f6" : String).toList).isSome) ∧
    addAlpha (addAlpha "#3b82f6" (1/2)) (3/10) = addAlpha "#3b82f6" (1/2) ∧
    ((['r', 'g', 'b', 'a'].isPrefixOf ("rgba(1, 2, 3, 1)" : String).toList) = true ∧
      addAlpha "rgba(1, 2, 3, 1)" (1/2) = "rgba(1, 2, 3, 1)") :=
  ⟨⟨rfl, rfl⟩,
    (addAlpha_sound "#3b82f6" (1/2) (3/10)).2.2.2 (Or.inl ⟨rfl, rfl⟩),
    rfl, (addAlpha_sound "rgba(1, 2, 3, 1)" (1/2) 0).2.1 rfl⟩

end VueChart
